import Mathlib

set_option maxRecDepth 100000

/-!
Shallow embedding of the options-market record codec from
`src/options/src/market.rs` (struct `OptionMarket`, its `Pack` implementation
`pack_into_slice` / `unpack_from_slice`, the `IsInitialized` implementation,
and `OptionMarket::from_account_info`), together with the length-checked
entry points `Pack::pack` / `Pack::unpack` of the `solana_program` `Pack`
trait that the source relies on but that is not part of this repository.

Bytes are modelled as `Nat` values (well-formed buffers carry the bound
`< 256`), 32-byte public keys as `List Nat` of length 32, `u64` as `Nat`
bounded by `2 ^ 64`, and the `i64` timestamp as `Int` in the two's-complement
range.
-/

/-- `u64::from_le_bytes` (and `u8::from_le_bytes` on one byte): little-endian
interpretation of a byte list as an unsigned integer. -/
def leBytesToNat : List Nat → Nat
  | [] => 0
  | b :: rest => b + 256 * leBytesToNat rest

/-- `to_le_bytes` for an unsigned integer rendered on `k` little-endian bytes
(`u64::to_le_bytes` is the case `k = 8`, `u8::to_le_bytes` the case `k = 1`). -/
def natToLeBytes : Nat → Nat → List Nat
  | 0, _ => []
  | k + 1, n => n % 256 :: natToLeBytes k (n / 256)

/-- `i64::to_le_bytes`: little-endian two's-complement encoding of a signed
64-bit value (the value taken modulo `2 ^ 64`, as two's complement does). -/
def i64ToLeBytes (t : Int) : List Nat :=
  natToLeBytes 8 (t % (2 ^ 64 : Int)).toNat

/-- `i64::from_le_bytes`: little-endian two's-complement decoding of eight
bytes into a signed 64-bit value. -/
def leBytesToInt64 (c : List Nat) : Int :=
  if leBytesToNat c < 2 ^ 63 then (leBytesToNat c : Int)
  else (leBytesToNat c : Int) - 2 ^ 64

theorem natToLeBytes_length (k n : Nat) : (natToLeBytes k n).length = k := by
  induction k generalizing n with
  | zero => rfl
  | succ k ih => simp [natToLeBytes, ih]

theorem i64ToLeBytes_length (t : Int) : (i64ToLeBytes t).length = 8 :=
  natToLeBytes_length 8 _

theorem natToLeBytes_lt (k n : Nat) : ∀ x ∈ natToLeBytes k n, x < 256 := by
  induction k generalizing n with
  | zero => intro x hx; simp [natToLeBytes] at hx
  | succ k ih =>
    intro x hx
    rcases List.mem_cons.mp hx with h | h
    · subst h; exact Nat.mod_lt _ (by norm_num)
    · exact ih _ _ h

theorem leBytesToNat_natToLeBytes (k n : Nat) :
    leBytesToNat (natToLeBytes k n) = n % 256 ^ k := by
  induction k generalizing n with
  | zero => simp [natToLeBytes, leBytesToNat, Nat.mod_one]
  | succ k ih =>
    simp only [natToLeBytes, leBytesToNat, ih]
    rw [pow_succ', Nat.mod_mul]

theorem natToLeBytes_leBytesToNat (c : List Nat) (h : ∀ x ∈ c, x < 256) :
    natToLeBytes c.length (leBytesToNat c) = c := by
  induction c with
  | nil => rfl
  | cons b rest ih =>
    have hb : b < 256 := h b (List.mem_cons_self b rest)
    have hr := ih (fun x hx => h x (List.mem_cons_of_mem b hx))
    simp only [List.length_cons, natToLeBytes, leBytesToNat, List.cons.injEq]
    refine ⟨?_, ?_⟩
    · rw [Nat.add_mul_mod_self_left, Nat.mod_eq_of_lt hb]
    · rw [Nat.add_mul_div_left _ _ (by norm_num : 0 < 256),
        Nat.div_eq_of_lt hb, Nat.zero_add, hr]

theorem leBytesToNat_lt (c : List Nat) (h : ∀ x ∈ c, x < 256) :
    leBytesToNat c < 256 ^ c.length := by
  induction c with
  | nil => simp [leBytesToNat]
  | cons b rest ih =>
    have hb : b < 256 := h b (List.mem_cons_self b rest)
    have hr := ih (fun x hx => h x (List.mem_cons_of_mem b hx))
    simp only [leBytesToNat, List.length_cons, pow_succ']
    calc b + 256 * leBytesToNat rest < 256 + 256 * leBytesToNat rest := by omega
    _ = 256 * (leBytesToNat rest + 1) := by ring
    _ ≤ 256 * 256 ^ rest.length := Nat.mul_le_mul_left 256 hr

theorem leBytesToNat_singleton (x : Nat) : leBytesToNat [x] = x := by
  simp [leBytesToNat]

theorem leBytesToInt64_i64ToLeBytes (t : Int)
    (h1 : -(2 ^ 63) ≤ t) (h2 : t < 2 ^ 63) :
    leBytesToInt64 (i64ToLeBytes t) = t := by
  unfold i64ToLeBytes leBytesToInt64
  rw [leBytesToNat_natToLeBytes]
  have h256 : (256 : Nat) ^ 8 = 2 ^ 64 := by norm_num
  rw [h256]
  have hnn : (0 : Int) ≤ t % 2 ^ 64 := Int.emod_nonneg t (by norm_num)
  have hlt : t % 2 ^ 64 < 2 ^ 64 := Int.emod_lt_of_pos t (by norm_num)
  have hcase : t % 2 ^ 64 = t ∨ t % 2 ^ 64 = t + 2 ^ 64 := by omega
  rcases hcase with hc | hc <;> (rw [hc]; split <;> omega)

theorem i64ToLeBytes_leBytesToInt64 (c : List Nat) (hlen : c.length = 8)
    (h : ∀ x ∈ c, x < 256) :
    i64ToLeBytes (leBytesToInt64 c) = c := by
  have hlt : leBytesToNat c < 2 ^ 64 := by
    have := leBytesToNat_lt c h
    rw [hlen] at this
    norm_num at this
    exact this
  unfold leBytesToInt64 i64ToLeBytes
  have key : ((if leBytesToNat c < 2 ^ 63 then (leBytesToNat c : Int)
      else (leBytesToNat c : Int) - 2 ^ 64) % (2 ^ 64 : Int)).toNat
      = leBytesToNat c := by
    split <;> omega
  rw [key]
  have := natToLeBytes_leBytesToNat c h
  rw [hlen] at this
  exact this

/-- `PUBLIC_KEY_LEN` from the source: a Solana `Pubkey` is 32 bytes. -/
def PUBLIC_KEY_LEN : Nat := 32

/-- The error type relevant to this codec: `ProgramError::InvalidArgument`
from `from_account_info`, and `InvalidAccountData` / `UninitializedAccount`
raised by the `Pack` trait entry points. -/
inductive ProgramError where
  | invalidArgument
  | invalidAccountData
  | uninitializedAccount
  deriving DecidableEq, Repr

/-- The `OptionMarket` struct from the source. Public keys are byte lists
(length 32 for well-formed values), `u64` fields are `Nat`, the `i64`
timestamp is `Int`, and `bump_seed` (`u8`) is `Nat`. -/
structure OptionMarket where
  option_mint : List Nat
  writer_token_mint : List Nat
  underlying_asset_mint : List Nat
  quote_asset_mint : List Nat
  underlying_amount_per_contract : Nat
  quote_amount_per_contract : Nat
  expiration_unix_timestamp : Int
  underlying_asset_pool : List Nat
  quote_asset_pool : List Nat
  mint_fee_account : List Nat
  bump_seed : Nat
  deriving DecidableEq, Repr

namespace OptionMarket

/-- `OptionMarket::LEN`, written as the same sum as the source. -/
def LEN : Nat :=
  PUBLIC_KEY_LEN + PUBLIC_KEY_LEN + PUBLIC_KEY_LEN + PUBLIC_KEY_LEN
    + 8 + 8 + 8
    + PUBLIC_KEY_LEN + PUBLIC_KEY_LEN + PUBLIC_KEY_LEN + 1

/-- Each public-key field is genuinely a `[u8; 32]`: length 32. This is
exactly what the Rust `Pubkey` type guarantees and what `copy_from_slice`
in `pack_into_slice` relies on. -/
def keysWF (m : OptionMarket) : Prop :=
  m.option_mint.length = 32 ∧ m.writer_token_mint.length = 32 ∧
    m.underlying_asset_mint.length = 32 ∧ m.quote_asset_mint.length = 32 ∧
    m.underlying_asset_pool.length = 32 ∧ m.quote_asset_pool.length = 32 ∧
    m.mint_fee_account.length = 32

instance (m : OptionMarket) : Decidable m.keysWF := by
  unfold keysWF; exact inferInstance

/-- The record inhabits its Rust types: keys are 32 bytes of `u8`, the
amounts are `u64`, the timestamp is an `i64`, the bump seed a `u8`. -/
def wf (m : OptionMarket) : Prop :=
  m.keysWF ∧
    (∀ b ∈ m.option_mint, b < 256) ∧ (∀ b ∈ m.writer_token_mint, b < 256) ∧
    (∀ b ∈ m.underlying_asset_mint, b < 256) ∧
    (∀ b ∈ m.quote_asset_mint, b < 256) ∧
    (∀ b ∈ m.underlying_asset_pool, b < 256) ∧
    (∀ b ∈ m.quote_asset_pool, b < 256) ∧
    (∀ b ∈ m.mint_fee_account, b < 256) ∧
    m.underlying_amount_per_contract < 2 ^ 64 ∧
    m.quote_amount_per_contract < 2 ^ 64 ∧
    -(2 ^ 63) ≤ m.expiration_unix_timestamp ∧
    m.expiration_unix_timestamp < 2 ^ 63 ∧
    m.bump_seed < 256

instance (m : OptionMarket) : Decidable m.wf := by
  unfold wf; exact inferInstance

end OptionMarket

/-- `array_ref![src, off, len]` as a pure slice: `len` bytes of `src`
starting at offset `off`. -/
def arrayRef (src : List Nat) (off len : Nat) : List Nat :=
  (src.drop off).take len

namespace OptionMarket

/-- `unpack_from_slice` from the source: split the buffer at the cumulative
offsets `32, 64, 96, 128, 136, 144, 152, 184, 216, 248` (via `array_refs!`)
and rebuild the record; keys are verbatim 32-byte copies, integers are
decoded little-endian. The source wraps the result in `Ok` unconditionally
(this function itself has no failure path once the slice exists); the
length check lives in the `unpack_unchecked` entry point below. -/
def unpack_from_slice (src : List Nat) : OptionMarket where
  option_mint := arrayRef src 0 PUBLIC_KEY_LEN
  writer_token_mint := arrayRef src 32 PUBLIC_KEY_LEN
  underlying_asset_mint := arrayRef src 64 PUBLIC_KEY_LEN
  quote_asset_mint := arrayRef src 96 PUBLIC_KEY_LEN
  underlying_amount_per_contract := leBytesToNat (arrayRef src 128 8)
  quote_amount_per_contract := leBytesToNat (arrayRef src 136 8)
  expiration_unix_timestamp := leBytesToInt64 (arrayRef src 144 8)
  underlying_asset_pool := arrayRef src 152 PUBLIC_KEY_LEN
  quote_asset_pool := arrayRef src 184 PUBLIC_KEY_LEN
  mint_fee_account := arrayRef src 216 PUBLIC_KEY_LEN
  bump_seed := leBytesToNat (arrayRef src 248 1)

/-- The 249 bytes written by `pack_into_slice`: `mut_array_refs!` splits the
destination into eleven contiguous chunks covering bytes `0..249`, and each
`copy_from_slice` overwrites its chunk completely, so the written prefix is
exactly this concatenation (field order as in the source). -/
def packBytes (m : OptionMarket) : List Nat :=
  m.option_mint ++ m.writer_token_mint ++ m.underlying_asset_mint ++
    m.quote_asset_mint ++
    natToLeBytes 8 m.underlying_amount_per_contract ++
    natToLeBytes 8 m.quote_amount_per_contract ++
    i64ToLeBytes m.expiration_unix_timestamp ++
    m.underlying_asset_pool ++ m.quote_asset_pool ++ m.mint_fee_account ++
    [m.bump_seed]

/-- `pack_into_slice` from the source. `array_mut_ref![dst, 0, LEN]` panics
unless the destination holds at least `LEN` bytes, and each
`copy_from_slice` panics unless the source slice matches its chunk width —
in Rust the key widths are enforced by the `[u8; 32]` type, here by
`keysWF`; the integer encodings always have the right width by construction.
A panic is modelled as `none`. On success the first `LEN` bytes are fully
overwritten with `packBytes` and the rest of the destination is untouched. -/
def pack_into_slice (m : OptionMarket) (dst : List Nat) : Option (List Nat) :=
  if LEN ≤ dst.length ∧ m.keysWF then
    some (packBytes m ++ dst.drop LEN)
  else none

/-- Modelled from the spec (and the `solana_program` `Pack` trait, which is
not part of this repository): the length-checked decode entry point —
"Fails with a malformed-input error if the buffer is any other length"
than `LEN`, otherwise delegates to `unpack_from_slice`. -/
def unpack_unchecked (input : List Nat) : Except ProgramError OptionMarket :=
  if input.length ≠ LEN then .error .invalidAccountData
  else .ok (unpack_from_slice input)

/-- The `IsInitialized` implementation from the source: constantly `true`. -/
def is_initialized (_ : OptionMarket) : Bool := true

/-- Modelled from the spec (and the `solana_program` `Pack` trait, not part
of this repository): `unpack` length-checks via `unpack_unchecked`, then
gates on `is_initialized`, failing with an uninitialized-account error when
it is false. This is the "decode" operation of the spec. -/
def unpack (input : List Nat) : Except ProgramError OptionMarket :=
  match unpack_unchecked input with
  | .error e => .error e
  | .ok m => if is_initialized m then .ok m else .error .uninitializedAccount

/-- Modelled from the spec (and the `solana_program` `Pack` trait, not part
of this repository): `pack` requires the destination length to be exactly
`LEN` (malformed-input otherwise), then runs `pack_into_slice`. The outer
`Option` records the (unreachable) panic of `pack_into_slice`. -/
def pack (src : OptionMarket) (dst : List Nat) :
    Option (Except ProgramError (List Nat)) :=
  if dst.length ≠ LEN then some (.error .invalidAccountData)
  else (pack_into_slice src dst).map .ok

/-- The spec's "encode": serialize into a fresh zero-initialized buffer of
exactly `LEN` bytes (as the source's test does with `[0 as u8; LEN]`). -/
def encode (m : OptionMarket) : Option (List Nat) :=
  pack_into_slice m (List.replicate LEN 0)

end OptionMarket

/-- The slice of a Solana `AccountInfo` that `from_account_info` consumes:
the owner identity of the storage slot and its raw data bytes. -/
structure AccountInfo where
  owner : List Nat
  data : List Nat

namespace OptionMarket

/-- `OptionMarket::from_account_info` from the source: reject with
`ProgramError::InvalidArgument` when the slot's owner is not the expected
program id, otherwise decode the slot's raw bytes with `unpack`
(`try_borrow_data` always succeeds in this single-threaded model). -/
def from_account_info (account_info : AccountInfo) (program_id : List Nat) :
    Except ProgramError OptionMarket :=
  if account_info.owner ≠ program_id then .error .invalidArgument
  else unpack account_info.data

end OptionMarket

/-- An all-zero 32-byte identity key. -/
def zeroKey : List Nat := List.replicate 32 0

/-- The concrete record of the spec's §8 scenario (with all-zero identity
keys, which the scenario's claims quantify over). -/
def sampleMarket : OptionMarket where
  option_mint := zeroKey
  writer_token_mint := zeroKey
  underlying_asset_mint := zeroKey
  quote_asset_mint := zeroKey
  underlying_amount_per_contract := 100
  quote_amount_per_contract := 5
  expiration_unix_timestamp := 1607743435
  underlying_asset_pool := zeroKey
  quote_asset_pool := zeroKey
  mint_fee_account := zeroKey
  bump_seed := 1


theorem arrayRef_append (a b : List Nat) (n : Nat) (h : a.length = n) :
    arrayRef (a ++ b) 0 n = a := by
  unfold arrayRef
  rw [List.drop_zero, List.take_left' h]

theorem arrayRef_peel (a b : List Nat) (off off2 n : Nat)
    (h : a.length + off2 = off) :
    arrayRef (a ++ b) off n = arrayRef b off2 n := by
  subst h
  unfold arrayRef
  rw [← List.drop_drop, List.drop_left]

theorem arrayRef_length (b : List Nat) (off n : Nat) (h : off + n ≤ b.length) :
    (arrayRef b off n).length = n := by
  unfold arrayRef
  rw [List.length_take, List.length_drop]
  omega

theorem arrayRef_subset (b : List Nat) (off n : Nat) : arrayRef b off n ⊆ b := by
  intro x hx
  unfold arrayRef at hx
  exact List.drop_subset off b (List.take_subset n (b.drop off) hx)

theorem arrayRef_append_drop (b : List Nat) (off n off2 : Nat)
    (h : off + n = off2) :
    arrayRef b off n ++ b.drop off2 = b.drop off := by
  subst h
  unfold arrayRef
  rw [← List.drop_drop]
  exact List.take_append_drop n (b.drop off)

theorem arrayRef_singleton (x : Nat) : arrayRef [x] 0 1 = [x] := rfl

namespace OptionMarket

theorem packBytes_arrayRef (m : OptionMarket) (h : m.keysWF) :
    arrayRef (packBytes m) 0 32 = m.option_mint ∧
    arrayRef (packBytes m) 32 32 = m.writer_token_mint ∧
    arrayRef (packBytes m) 64 32 = m.underlying_asset_mint ∧
    arrayRef (packBytes m) 96 32 = m.quote_asset_mint ∧
    arrayRef (packBytes m) 128 8
      = natToLeBytes 8 m.underlying_amount_per_contract ∧
    arrayRef (packBytes m) 136 8
      = natToLeBytes 8 m.quote_amount_per_contract ∧
    arrayRef (packBytes m) 144 8 = i64ToLeBytes m.expiration_unix_timestamp ∧
    arrayRef (packBytes m) 152 32 = m.underlying_asset_pool ∧
    arrayRef (packBytes m) 184 32 = m.quote_asset_pool ∧
    arrayRef (packBytes m) 216 32 = m.mint_fee_account ∧
    arrayRef (packBytes m) 248 1 = [m.bump_seed] := by
  obtain ⟨h1, h2, h3, h4, h5, h6, h7⟩ := h
  have ha1 : (natToLeBytes 8 m.underlying_amount_per_contract).length = 8 :=
    natToLeBytes_length 8 _
  have ha2 : (natToLeBytes 8 m.quote_amount_per_contract).length = 8 :=
    natToLeBytes_length 8 _
  have he : (i64ToLeBytes m.expiration_unix_timestamp).length = 8 :=
    i64ToLeBytes_length _
  unfold packBytes
  simp only [List.append_assoc]
  refine ⟨?_, ?_, ?_, ?_, ?_, ?_, ?_, ?_, ?_, ?_, ?_⟩
  · rw [arrayRef_append _ _ _ h1]
  · rw [arrayRef_peel m.option_mint _ 32 0 32 (by omega),
      arrayRef_append _ _ _ h2]
  · rw [arrayRef_peel m.option_mint _ 64 32 32 (by omega),
      arrayRef_peel m.writer_token_mint _ 32 0 32 (by omega),
      arrayRef_append _ _ _ h3]
  · rw [arrayRef_peel m.option_mint _ 96 64 32 (by omega),
      arrayRef_peel m.writer_token_mint _ 64 32 32 (by omega),
      arrayRef_peel m.underlying_asset_mint _ 32 0 32 (by omega),
      arrayRef_append _ _ _ h4]
  · rw [arrayRef_peel m.option_mint _ 128 96 8 (by omega),
      arrayRef_peel m.writer_token_mint _ 96 64 8 (by omega),
      arrayRef_peel m.underlying_asset_mint _ 64 32 8 (by omega),
      arrayRef_peel m.quote_asset_mint _ 32 0 8 (by omega),
      arrayRef_append _ _ _ ha1]
  · rw [arrayRef_peel m.option_mint _ 136 104 8 (by omega),
      arrayRef_peel m.writer_token_mint _ 104 72 8 (by omega),
      arrayRef_peel m.underlying_asset_mint _ 72 40 8 (by omega),
      arrayRef_peel m.quote_asset_mint _ 40 8 8 (by omega),
      arrayRef_peel (natToLeBytes 8 m.underlying_amount_per_contract) _
        8 0 8 (by omega),
      arrayRef_append _ _ _ ha2]
  · rw [arrayRef_peel m.option_mint _ 144 112 8 (by omega),
      arrayRef_peel m.writer_token_mint _ 112 80 8 (by omega),
      arrayRef_peel m.underlying_asset_mint _ 80 48 8 (by omega),
      arrayRef_peel m.quote_asset_mint _ 48 16 8 (by omega),
      arrayRef_peel (natToLeBytes 8 m.underlying_amount_per_contract) _
        16 8 8 (by omega),
      arrayRef_peel (natToLeBytes 8 m.quote_amount_per_contract) _
        8 0 8 (by omega),
      arrayRef_append _ _ _ he]
  · rw [arrayRef_peel m.option_mint _ 152 120 32 (by omega),
      arrayRef_peel m.writer_token_mint _ 120 88 32 (by omega),
      arrayRef_peel m.underlying_asset_mint _ 88 56 32 (by omega),
      arrayRef_peel m.quote_asset_mint _ 56 24 32 (by omega),
      arrayRef_peel (natToLeBytes 8 m.underlying_amount_per_contract) _
        24 16 32 (by omega),
      arrayRef_peel (natToLeBytes 8 m.quote_amount_per_contract) _
        16 8 32 (by omega),
      arrayRef_peel (i64ToLeBytes m.expiration_unix_timestamp) _
        8 0 32 (by omega),
      arrayRef_append _ _ _ h5]
  · rw [arrayRef_peel m.option_mint _ 184 152 32 (by omega),
      arrayRef_peel m.writer_token_mint _ 152 120 32 (by omega),
      arrayRef_peel m.underlying_asset_mint _ 120 88 32 (by omega),
      arrayRef_peel m.quote_asset_mint _ 88 56 32 (by omega),
      arrayRef_peel (natToLeBytes 8 m.underlying_amount_per_contract) _
        56 48 32 (by omega),
      arrayRef_peel (natToLeBytes 8 m.quote_amount_per_contract) _
        48 40 32 (by omega),
      arrayRef_peel (i64ToLeBytes m.expiration_unix_timestamp) _
        40 32 32 (by omega),
      arrayRef_peel m.underlying_asset_pool _ 32 0 32 (by omega),
      arrayRef_append _ _ _ h6]
  · rw [arrayRef_peel m.option_mint _ 216 184 32 (by omega),
      arrayRef_peel m.writer_token_mint _ 184 152 32 (by omega),
      arrayRef_peel m.underlying_asset_mint _ 152 120 32 (by omega),
      arrayRef_peel m.quote_asset_mint _ 120 88 32 (by omega),
      arrayRef_peel (natToLeBytes 8 m.underlying_amount_per_contract) _
        88 80 32 (by omega),
      arrayRef_peel (natToLeBytes 8 m.quote_amount_per_contract) _
        80 72 32 (by omega),
      arrayRef_peel (i64ToLeBytes m.expiration_unix_timestamp) _
        72 64 32 (by omega),
      arrayRef_peel m.underlying_asset_pool _ 64 32 32 (by omega),
      arrayRef_peel m.quote_asset_pool _ 32 0 32 (by omega),
      arrayRef_append _ _ _ h7]
  · rw [arrayRef_peel m.option_mint _ 248 216 1 (by omega),
      arrayRef_peel m.writer_token_mint _ 216 184 1 (by omega),
      arrayRef_peel m.underlying_asset_mint _ 184 152 1 (by omega),
      arrayRef_peel m.quote_asset_mint _ 152 120 1 (by omega),
      arrayRef_peel (natToLeBytes 8 m.underlying_amount_per_contract) _
        120 112 1 (by omega),
      arrayRef_peel (natToLeBytes 8 m.quote_amount_per_contract) _
        112 104 1 (by omega),
      arrayRef_peel (i64ToLeBytes m.expiration_unix_timestamp) _
        104 96 1 (by omega),
      arrayRef_peel m.underlying_asset_pool _ 96 64 1 (by omega),
      arrayRef_peel m.quote_asset_pool _ 64 32 1 (by omega),
      arrayRef_peel m.mint_fee_account _ 32 0 1 (by omega),
      arrayRef_singleton]

end OptionMarket

namespace OptionMarket

theorem LEN_eq : LEN = 249 := rfl

theorem packBytes_length (m : OptionMarket) (h : m.keysWF) :
    (packBytes m).length = LEN := by
  obtain ⟨h1, h2, h3, h4, h5, h6, h7⟩ := h
  simp [packBytes, LEN, PUBLIC_KEY_LEN, List.length_append, h1, h2, h3, h4,
    h5, h6, h7, natToLeBytes_length, i64ToLeBytes_length]

theorem pack_into_slice_eq (m : OptionMarket) (dst : List Nat)
    (h : m.keysWF) (hd : dst.length = LEN) :
    pack_into_slice m dst = some (packBytes m) := by
  unfold pack_into_slice
  rw [if_pos ⟨le_of_eq hd.symm, h⟩, List.drop_eq_nil_of_le (le_of_eq hd),
    List.append_nil]

theorem encode_eq (m : OptionMarket) (h : m.keysWF) :
    encode m = some (packBytes m) :=
  pack_into_slice_eq m _ h (by simp)

theorem unpack_eq (b : List Nat) :
    unpack b = if b.length = LEN then .ok (unpack_from_slice b)
      else .error .invalidAccountData := by
  unfold unpack unpack_unchecked is_initialized
  by_cases h : b.length = LEN
  · simp [h]
  · simp [h]

theorem unpack_from_slice_packBytes (m : OptionMarket) (h : m.wf) :
    unpack_from_slice (packBytes m) = m := by
  obtain ⟨hk, hb1, hb2, hb3, hb4, hb5, hb6, hb7, hu, hq, he1, he2, hbs⟩ := h
  obtain ⟨e1, e2, e3, e4, e5, e6, e7, e8, e9, e10, e11⟩ :=
    packBytes_arrayRef m hk
  have h256 : (256 : Nat) ^ 8 = 2 ^ 64 := by norm_num
  have hu' : m.underlying_amount_per_contract % 256 ^ 8
      = m.underlying_amount_per_contract := by
    rw [h256]; exact Nat.mod_eq_of_lt hu
  have hq' : m.quote_amount_per_contract % 256 ^ 8
      = m.quote_amount_per_contract := by
    rw [h256]; exact Nat.mod_eq_of_lt hq
  unfold unpack_from_slice PUBLIC_KEY_LEN
  rw [e1, e2, e3, e4, e5, e6, e7, e8, e9, e10, e11,
    leBytesToNat_natToLeBytes, leBytesToNat_natToLeBytes, hu', hq',
    leBytesToInt64_i64ToLeBytes _ he1 he2, leBytesToNat_singleton]

theorem keysWF_unpack_from_slice (b : List Nat) (hlen : b.length = LEN) :
    (unpack_from_slice b).keysWF := by
  unfold unpack_from_slice keysWF PUBLIC_KEY_LEN
  rw [LEN_eq] at hlen
  refine ⟨?_, ?_, ?_, ?_, ?_, ?_, ?_⟩ <;> (rw [arrayRef_length]; omega)

theorem packBytes_unpack_from_slice (b : List Nat) (hlen : b.length = LEN)
    (hbytes : ∀ x ∈ b, x < 256) :
    packBytes (unpack_from_slice b) = b := by
  rw [LEN_eq] at hlen
  have sub8 : ∀ off : Nat, off + 8 ≤ 249 →
      natToLeBytes 8 (leBytesToNat (arrayRef b off 8)) = arrayRef b off 8 := by
    intro off hoff
    have hl : (arrayRef b off 8).length = 8 := arrayRef_length b off 8 (by omega)
    have := natToLeBytes_leBytesToNat (arrayRef b off 8)
      (fun x hx => hbytes x (arrayRef_subset b off 8 hx))
    rw [hl] at this
    exact this
  have sube : i64ToLeBytes (leBytesToInt64 (arrayRef b 144 8))
      = arrayRef b 144 8 :=
    i64ToLeBytes_leBytesToInt64 _ (arrayRef_length b 144 8 (by omega))
      (fun x hx => hbytes x (arrayRef_subset b 144 8 hx))
  have subb : [leBytesToNat (arrayRef b 248 1)] = arrayRef b 248 1 := by
    have hl : (arrayRef b 248 1).length = 1 := arrayRef_length b 248 1 (by omega)
    match hc : arrayRef b 248 1 with
    | [x] => rw [leBytesToNat_singleton]
    | [] => rw [hc] at hl; simp at hl
    | x :: y :: r => rw [hc] at hl; simp at hl
  have hdrop : b.drop 249 = [] := List.drop_eq_nil_of_le (le_of_eq hlen)
  unfold packBytes unpack_from_slice PUBLIC_KEY_LEN
  rw [sub8 128 (by omega), sub8 136 (by omega), sube, subb]
  simp only [List.append_assoc]
  rw [show arrayRef b 248 1 = arrayRef b 248 1 ++ b.drop 249 by
      rw [hdrop, List.append_nil],
    arrayRef_append_drop b 248 1 249 rfl,
    arrayRef_append_drop b 216 32 248 rfl,
    arrayRef_append_drop b 184 32 216 rfl,
    arrayRef_append_drop b 152 32 184 rfl,
    arrayRef_append_drop b 144 8 152 rfl,
    arrayRef_append_drop b 136 8 144 rfl,
    arrayRef_append_drop b 128 8 136 rfl,
    arrayRef_append_drop b 96 32 128 rfl,
    arrayRef_append_drop b 64 32 96 rfl,
    arrayRef_append_drop b 32 32 64 rfl,
    arrayRef_append_drop b 0 32 32 rfl,
    List.drop_zero]

end OptionMarket

/-- Claim C1: for every Record whose eleven fields range over their full Rust
types (32-byte identity keys, `u64` amounts, `i64` expiration, `u8` layout
seed), decoding the 249-byte buffer produced by encoding the record yields
the record back, field-wise equal. -/
theorem c1_round_trip (r : OptionMarket) (h : r.wf) :
    OptionMarket.encode r = some (OptionMarket.packBytes r) ∧
    OptionMarket.unpack (OptionMarket.packBytes r) = .ok r := by
  refine ⟨OptionMarket.encode_eq r h.1, ?_⟩
  rw [OptionMarket.unpack_eq, if_pos (OptionMarket.packBytes_length r h.1),
    OptionMarket.unpack_from_slice_packBytes r h]

theorem c1_round_trip_witness :
    sampleMarket.wf ∧
    (OptionMarket.encode sampleMarket
        = some (OptionMarket.packBytes sampleMarket) ∧
      OptionMarket.unpack (OptionMarket.packBytes sampleMarket)
        = .ok sampleMarket) :=
  ⟨by decide, c1_round_trip sampleMarket (by decide)⟩

/-- Claim C2 (counterexample): with the §8 scenario values
(`underlying = 100`, `quote = 5`, `expiration = 1607743435`, `seed = 1`)
and all-zero identity keys — one instance of the claim's "arbitrary
identity keys" — the encoded buffer does not carry the little-endian
encoding of 100 at bytes 224–231: those bytes lie inside the fee-collector
key, and the amount actually sits at bytes 128–135. -/
theorem c2_offsets_counterexample :
    OptionMarket.encode sampleMarket
        = some (OptionMarket.packBytes sampleMarket) ∧
    arrayRef (OptionMarket.packBytes sampleMarket) 224 8
        ≠ natToLeBytes 8 100 ∧
    arrayRef (OptionMarket.packBytes sampleMarket) 240 8
        ≠ i64ToLeBytes 1607743435 := by
  refine ⟨by decide, by decide, by decide⟩

/-- Claim C2 (amended): for the Record with
`underlying_amount_per_contract = 100`, `quote_amount_per_contract = 5`,
`expiration_timestamp = 1607743435`, `layout_seed = 1` and arbitrary
identity keys, the encoded 249-byte buffer has bytes 128–135 equal to
little-endian 100, bytes 136–143 equal to little-endian 5, bytes 144–151
equal to little-endian 1607743435, and byte 248 equal to 1. -/
theorem c2_scenario_offsets (r : OptionMarket) (hk : r.keysWF)
    (hu : r.underlying_amount_per_contract = 100)
    (hq : r.quote_amount_per_contract = 5)
    (he : r.expiration_unix_timestamp = 1607743435)
    (hb : r.bump_seed = 1) :
    (OptionMarket.packBytes r).length = 249 ∧
    arrayRef (OptionMarket.packBytes r) 128 8 = natToLeBytes 8 100 ∧
    arrayRef (OptionMarket.packBytes r) 136 8 = natToLeBytes 8 5 ∧
    arrayRef (OptionMarket.packBytes r) 144 8 = i64ToLeBytes 1607743435 ∧
    arrayRef (OptionMarket.packBytes r) 248 1 = [1] := by
  obtain ⟨e1, e2, e3, e4, e5, e6, e7, e8, e9, e10, e11⟩ :=
    OptionMarket.packBytes_arrayRef r hk
  refine ⟨?_, ?_, ?_, ?_, ?_⟩
  · rw [OptionMarket.packBytes_length r hk]
    exact OptionMarket.LEN_eq
  · rw [e5, hu]
  · rw [e6, hq]
  · rw [e7, he]
  · rw [e11, hb]

theorem c2_scenario_offsets_witness :
    sampleMarket.keysWF ∧
    ((OptionMarket.packBytes sampleMarket).length = 249 ∧
      arrayRef (OptionMarket.packBytes sampleMarket) 128 8
        = natToLeBytes 8 100 ∧
      arrayRef (OptionMarket.packBytes sampleMarket) 136 8
        = natToLeBytes 8 5 ∧
      arrayRef (OptionMarket.packBytes sampleMarket) 144 8
        = i64ToLeBytes 1607743435 ∧
      arrayRef (OptionMarket.packBytes sampleMarket) 248 1 = [1]) :=
  ⟨by decide, c2_scenario_offsets sampleMarket (by decide) rfl rfl rfl rfl⟩

/-- Claim C3: every field of the Record occupies in the encoded buffer
exactly the byte range of the §3 table (offsets the running sum of the
preceding widths), and the sub-slice at each offset equals that field's
independently-encoded bytes (keys verbatim, integers little-endian). -/
theorem c3_offset_stability (r : OptionMarket) (h : r.keysWF) :
    OptionMarket.encode r = some (OptionMarket.packBytes r) ∧
    (OptionMarket.packBytes r).length = OptionMarket.LEN ∧
    (arrayRef (OptionMarket.packBytes r) 0 32 = r.option_mint ∧
      arrayRef (OptionMarket.packBytes r) 32 32 = r.writer_token_mint ∧
      arrayRef (OptionMarket.packBytes r) 64 32 = r.underlying_asset_mint ∧
      arrayRef (OptionMarket.packBytes r) 96 32 = r.quote_asset_mint ∧
      arrayRef (OptionMarket.packBytes r) 128 8
        = natToLeBytes 8 r.underlying_amount_per_contract ∧
      arrayRef (OptionMarket.packBytes r) 136 8
        = natToLeBytes 8 r.quote_amount_per_contract ∧
      arrayRef (OptionMarket.packBytes r) 144 8
        = i64ToLeBytes r.expiration_unix_timestamp ∧
      arrayRef (OptionMarket.packBytes r) 152 32 = r.underlying_asset_pool ∧
      arrayRef (OptionMarket.packBytes r) 184 32 = r.quote_asset_pool ∧
      arrayRef (OptionMarket.packBytes r) 216 32 = r.mint_fee_account ∧
      arrayRef (OptionMarket.packBytes r) 248 1 = [r.bump_seed]) :=
  ⟨OptionMarket.encode_eq r h, OptionMarket.packBytes_length r h,
    OptionMarket.packBytes_arrayRef r h⟩

theorem c3_offset_stability_witness :
    sampleMarket.keysWF ∧
    OptionMarket.encode sampleMarket
      = some (OptionMarket.packBytes sampleMarket) ∧
    arrayRef (OptionMarket.packBytes sampleMarket) 216 32
      = sampleMarket.mint_fee_account :=
  ⟨by decide, (c3_offset_stability sampleMarket (by decide)).1,
    (c3_offset_stability sampleMarket (by decide)).2.2.2.2.2.2.2.2.2.2.1⟩

/-- Claim C4: decode fails with the malformed-input error exactly when the
buffer length is not 249 (in particular on lengths 0, 248, 250), and on
every buffer of exactly 249 bytes it succeeds with a Record, whatever the
bit pattern — there is no other failure mode. -/
theorem c4_length_check :
    (∀ b : List Nat, b.length ≠ OptionMarket.LEN →
      OptionMarket.unpack b = .error .invalidAccountData) ∧
    (∀ b : List Nat, b.length = OptionMarket.LEN →
      OptionMarket.unpack b = .ok (OptionMarket.unpack_from_slice b)) ∧
    OptionMarket.unpack [] = .error .invalidAccountData ∧
    OptionMarket.unpack (List.replicate 248 0)
      = .error .invalidAccountData ∧
    OptionMarket.unpack (List.replicate 250 0)
      = .error .invalidAccountData := by
  refine ⟨?_, ?_, ?_, ?_, ?_⟩
  · intro b hb; rw [OptionMarket.unpack_eq, if_neg hb]
  · intro b hb; rw [OptionMarket.unpack_eq, if_pos hb]
  · rw [OptionMarket.unpack_eq, if_neg (by simp [OptionMarket.LEN_eq])]
  · rw [OptionMarket.unpack_eq, if_neg (by simp [OptionMarket.LEN_eq])]
  · rw [OptionMarket.unpack_eq, if_neg (by simp [OptionMarket.LEN_eq])]

theorem c4_length_check_witness :
    OptionMarket.unpack [0] = .error .invalidAccountData ∧
    OptionMarket.unpack (List.replicate 249 0)
      = .ok (OptionMarket.unpack_from_slice (List.replicate 249 0)) :=
  ⟨c4_length_check.1 [0] (by simp [OptionMarket.LEN_eq]),
    c4_length_check.2.1 _ (by simp [OptionMarket.LEN_eq])⟩

/-- Claim C5: on a storage slot whose owner differs from the expected
program id, `from_account_info` fails with the unauthorized-storage-owner
error (`InvalidArgument`) regardless of the slot's bytes; on a slot whose
owner matches, it returns exactly the result of decoding the slot's raw
bytes, propagating decode's errors unchanged. -/
theorem c5_owner_check :
    (∀ (ai : AccountInfo) (pid : List Nat), ai.owner ≠ pid →
      OptionMarket.from_account_info ai pid = .error .invalidArgument) ∧
    (∀ (ai : AccountInfo) (pid : List Nat), ai.owner = pid →
      OptionMarket.from_account_info ai pid
        = OptionMarket.unpack ai.data) := by
  constructor
  · intro ai pid h
    unfold OptionMarket.from_account_info
    rw [if_pos h]
  · intro ai pid h
    unfold OptionMarket.from_account_info
    rw [if_neg (by simp [h])]

theorem c5_owner_check_witness :
    OptionMarket.from_account_info
        ⟨List.replicate 32 1, OptionMarket.packBytes sampleMarket⟩ zeroKey
      = .error .invalidArgument ∧
    OptionMarket.from_account_info
        ⟨zeroKey, OptionMarket.packBytes sampleMarket⟩ zeroKey
      = OptionMarket.unpack (OptionMarket.packBytes sampleMarket) :=
  ⟨c5_owner_check.1 ⟨List.replicate 32 1, OptionMarket.packBytes sampleMarket⟩
      zeroKey (by decide),
    c5_owner_check.2 ⟨zeroKey, OptionMarket.packBytes sampleMarket⟩
      zeroKey rfl⟩

/-- Claim C6: the declared record length is 7 × 32 + 3 × 8 + 1 = 249, and
encoding any Record produces a buffer of exactly 249 bytes. -/
theorem c6_fixed_width :
    OptionMarket.LEN = 249 ∧
    ∀ m : OptionMarket, m.keysWF →
      OptionMarket.encode m = some (OptionMarket.packBytes m) ∧
      (OptionMarket.packBytes m).length = 249 := by
  refine ⟨rfl, fun m h => ⟨OptionMarket.encode_eq m h, ?_⟩⟩
  rw [OptionMarket.packBytes_length m h]
  exact OptionMarket.LEN_eq

theorem c6_fixed_width_witness :
    sampleMarket.keysWF ∧
    OptionMarket.encode sampleMarket
      = some (OptionMarket.packBytes sampleMarket) ∧
    (OptionMarket.packBytes sampleMarket).length = 249 :=
  ⟨by decide, (c6_fixed_width.2 sampleMarket (by decide)).1,
    (c6_fixed_width.2 sampleMarket (by decide)).2⟩

/-- Claim C7: encode never fails — for every in-memory Record (fields in
their Rust types, so every field fits its fixed width), packing into a
fresh 249-byte buffer succeeds, with no reachable out-of-range or
out-of-bounds branch (no `none` from the modelled panics, no error). -/
theorem c7_encode_never_fails (m : OptionMarket) (h : m.wf) :
    OptionMarket.pack m (List.replicate OptionMarket.LEN 0)
      = some (.ok (OptionMarket.packBytes m)) ∧
    (OptionMarket.packBytes m).length = OptionMarket.LEN := by
  refine ⟨?_, OptionMarket.packBytes_length m h.1⟩
  unfold OptionMarket.pack
  rw [if_neg (by simp), OptionMarket.pack_into_slice_eq m _ h.1 (by simp)]
  rfl

theorem c7_encode_never_fails_witness :
    sampleMarket.wf ∧
    OptionMarket.pack sampleMarket (List.replicate OptionMarket.LEN 0)
      = some (.ok (OptionMarket.packBytes sampleMarket)) :=
  ⟨by decide, (c7_encode_never_fails sampleMarket (by decide)).1⟩

/-- Claim C8 (implicit): the codec is a bijection on 249-byte buffers — any
buffer of exactly 249 bytes decodes successfully, and re-encoding the
decoded Record reproduces the buffer byte for byte; no 249-byte pattern is
rejected or normalized. -/
theorem c8_decode_encode (b : List Nat) (hlen : b.length = OptionMarket.LEN)
    (hbytes : ∀ x ∈ b, x < 256) :
    OptionMarket.unpack b = .ok (OptionMarket.unpack_from_slice b) ∧
    OptionMarket.encode (OptionMarket.unpack_from_slice b) = some b := by
  refine ⟨by rw [OptionMarket.unpack_eq, if_pos hlen], ?_⟩
  rw [OptionMarket.encode_eq _ (OptionMarket.keysWF_unpack_from_slice b hlen),
    OptionMarket.packBytes_unpack_from_slice b hlen hbytes]

theorem c8_decode_encode_witness :
    (List.replicate 249 7).length = OptionMarket.LEN ∧
    (OptionMarket.unpack (List.replicate 249 7)
        = .ok (OptionMarket.unpack_from_slice (List.replicate 249 7)) ∧
      OptionMarket.encode
          (OptionMarket.unpack_from_slice (List.replicate 249 7))
        = some (List.replicate 249 7)) :=
  ⟨by simp [OptionMarket.LEN_eq],
    c8_decode_encode (List.replicate 249 7) (by simp [OptionMarket.LEN_eq])
      (by decide)⟩

/-- Claim C9 (implicit): the encoded output depends only on the Record, not
on the destination buffer's prior contents — packing the same Record into
any two 249-byte destinations yields the same buffer, namely the pure
encoding; zero-initialization of the destination is not required. -/
theorem c9_dst_independent (m : OptionMarket) (d1 d2 : List Nat)
    (h : m.keysWF) (h1 : d1.length = OptionMarket.LEN)
    (h2 : d2.length = OptionMarket.LEN) :
    OptionMarket.pack_into_slice m d1 = OptionMarket.pack_into_slice m d2 ∧
    OptionMarket.pack_into_slice m d1
      = some (OptionMarket.packBytes m) := by
  rw [OptionMarket.pack_into_slice_eq m d1 h h1,
    OptionMarket.pack_into_slice_eq m d2 h h2]
  exact ⟨rfl, rfl⟩

theorem c9_dst_independent_witness :
    OptionMarket.pack_into_slice sampleMarket (List.replicate 249 0)
      = OptionMarket.pack_into_slice sampleMarket (List.replicate 249 255) ∧
    OptionMarket.pack_into_slice sampleMarket (List.replicate 249 0)
      = some (OptionMarket.packBytes sampleMarket) :=
  c9_dst_independent sampleMarket (List.replicate 249 0)
    (List.replicate 249 255) (by decide) (by simp [OptionMarket.LEN_eq])
    (by simp [OptionMarket.LEN_eq])

/-- Claim C10 (implicit): the record's initialized-check is constantly true,
so the length-checked decode entry point coincides with the bare
length-checked decode and never fails with an uninitialized-account error:
its only outcomes are malformed-input or a successfully decoded Record. -/
theorem c10_always_initialized :
    (∀ m : OptionMarket, OptionMarket.is_initialized m = true) ∧
    (∀ b : List Nat,
      OptionMarket.unpack b = OptionMarket.unpack_unchecked b) ∧
    (∀ b : List Nat,
      OptionMarket.unpack b = .error .invalidAccountData ∨
        ∃ r, OptionMarket.unpack b = .ok r) := by
  refine ⟨fun m => rfl, fun b => ?_, fun b => ?_⟩
  · unfold OptionMarket.unpack
    cases hu : OptionMarket.unpack_unchecked b with
    | error e => rfl
    | ok m => rfl
  · rw [OptionMarket.unpack_eq]
    by_cases h : b.length = OptionMarket.LEN
    · right
      exact ⟨OptionMarket.unpack_from_slice b, by rw [if_pos h]⟩
    · left
      rw [if_neg h]
